import Mathlib

/-!
Verification of the stock-analysis engine (src/analysis.py, src/main.py)
against its natural-language specification.

Shallow embedding conventions:
* Prices and volumes are modelled as rationals (the Python code uses IEEE
  doubles; every claim under scrutiny is about the algebraic structure of the
  computation, not about rounding of binary floats).
* A pandas bar row becomes the structure `Bar`; a DataFrame becomes `List Bar`
  in time order.  The engine only reads the High, Low, Close and Volume
  columns, so only those fields are modelled.
* The network fetch (`get_stock_data`, yfinance I/O) is a boundary concern: the
  analysis entry point `analyze_stock` receives the fetched series as an
  `Option (List Bar)` (`none` = fetch returned None).
* Fallible sequence accesses inside the analysis stage return `Option`; the
  `except Exception: return None` wrapper of the source corresponds to the
  `Option` bind chain of `analyze_core`.
* Division by zero in ℚ yields 0.  In the source the corresponding case
  (`rr_ratio` with zero denominator) is a numpy 0.0/0.0 producing NaN, not an
  exception; in both semantics the comparison `rr_ratio >= 2` is False and the
  function still returns a result dictionary.
-/

/-- One cleaned bar of the series (one row of the DataFrame).  The engine reads
only the High, Low, Close and Volume columns. -/
structure Bar where
  high : ℚ
  low : ℚ
  close : ℚ
  volume : ℚ
deriving DecidableEq, Repr

/-- Helper to build a bar in examples. -/
def mkBar (h l c v : ℚ) : Bar := ⟨h, l, c, v⟩

/-- Python slice `xs[-k:]` on a sequence: the trailing `k` elements (the whole
sequence when it is shorter than `k`). -/
def lastN (l : List ℚ) (k : ℕ) : List ℚ := l.drop (l.length - k)

/-- Python negative indexing `xs[-k]` (k ≥ 1): `some` of the element `k` places
from the end when it exists, `none` when the index is out of range (an
IndexError in the source). -/
def getNeg (l : List ℚ) (k : ℕ) : Option ℚ :=
  if 1 ≤ k ∧ k ≤ l.length then l.get? (l.length - k) else none

/-- `np.mean` of a list (sum divided by length).  `np.mean` of an empty slice
is NaN (with a warning) in the source, never an exception; that case is
unreachable behind the length-20 guard and is mapped to 0 here. -/
def npMean (l : List ℚ) : ℚ := l.sum / (l.length : ℚ)

/-- Round half to even on ℚ (the semantics of Python `round` at integer
precision). -/
def roundHalfEven (x : ℚ) : ℤ :=
  let f := ⌊x⌋
  let r := x - f
  if r < 1/2 then f
  else if 1/2 < r then f + 1
  else if f % 2 = 0 then f else f + 1

/-- Python `round(x, 2)` (two decimal places, ties to even). -/
def round2 (x : ℚ) : ℚ := (roundHalfEven (x * 100) : ℚ) / 100

/-- The recurrence of `Series.ewm(span=w, adjust=False).mean()` after the seed:
each output is `alpha * value + (1 - alpha) * previous output`. -/
def ewmTail (alpha prev : ℚ) : List ℚ → List ℚ
  | [] => []
  | c :: cs =>
    let e := alpha * c + (1 - alpha) * prev
    e :: ewmTail alpha e cs

/-- `calculate_ema` from src/analysis.py: the Close column passed through
`ewm(span=window, adjust=False).mean()`, with window 50 at every call site.
The smoothing factor for span `w` is `2 / (w + 1)`, the seed is the first
close. -/
def calculate_ema (data : List Bar) (window : ℕ) : List ℚ :=
  match data.map Bar.close with
  | [] => []
  | c :: cs => c :: ewmTail (2 / ((window : ℚ) + 1)) c cs

/-- The six booleans of the `results` dictionary built by `analyze_stock`, in
insertion order. -/
structure Checklist where
  uptrend : Bool
  hh_hl : Bool
  near_resistance : Bool
  volume_spike : Bool
  clear_levels : Bool
  good_rr : Bool
deriving DecidableEq, Repr

/-- The dictionary returned by `get_support_resistance_levels`. -/
structure LevelSet where
  support : List ℚ
  resistance : List ℚ
deriving DecidableEq, Repr

/-- The dictionary returned by `analyze_stock` on success. -/
structure AnalysisResult where
  results : Checklist
  levels : LevelSet
  stop_loss : ℚ
  target : ℚ
  rr_ratio : ℚ
  data : List Bar
  ema_50 : List ℚ
deriving DecidableEq, Repr

/-- Number of true signals, as computed by `sum(result["results"].values())`
in src/main.py. -/
def passingCount (s : Checklist) : ℕ :=
  s.uptrend.toNat + s.hh_hl.toNat + s.near_resistance.toNat
    + s.volume_spike.toNat + s.clear_levels.toNat + s.good_rr.toNat

/-- The three verdict banners of src/main.py. -/
inductive Verdict where
  | strongBuy
  | neutralCaution
  | avoidTrade
deriving DecidableEq, Repr

/-- Verdict classification of src/main.py (lines 122-127):
`passing >= 5` strong buy, `elif passing >= 3` neutral, else avoid. -/
def verdictOf (s : Checklist) : Verdict :=
  if 5 ≤ passingCount s then Verdict.strongBuy
  else if 3 ≤ passingCount s then Verdict.neutralCaution
  else Verdict.avoidTrade

section EmaLemmas

theorem ewmTail_length (alpha : ℚ) :
    ∀ (cs : List ℚ) (prev : ℚ), (ewmTail alpha prev cs).length = cs.length := by
  intro cs
  induction cs with
  | nil => intro prev; rfl
  | cons c cs ih => intro prev; simp [ewmTail, ih]

theorem calculate_ema_length (data : List Bar) (w : ℕ) :
    (calculate_ema data w).length = data.length := by
  rcases hd : data.map Bar.close with _ | ⟨c, cs⟩
  · have : data = [] := List.map_eq_nil_iff.mp hd
    subst this
    rfl
  · have hlen : data.length = cs.length + 1 := by
      have := congrArg List.length hd
      simp at this
      omega
    simp only [calculate_ema, hd]
    simp [ewmTail_length, hlen]

theorem ewmTail_getD (alpha : ℚ) :
    ∀ (cs : List ℚ) (prev : ℚ) (t : ℕ), t < cs.length →
      (ewmTail alpha prev cs).getD t 0
        = alpha * cs.getD t 0
          + (1 - alpha) * (if t = 0 then prev else (ewmTail alpha prev cs).getD (t - 1) 0) := by
  intro cs
  induction cs with
  | nil => intro prev t ht; simp at ht
  | cons c cs ih =>
    intro prev t ht
    have hunfold : ewmTail alpha prev (c :: cs)
        = (alpha * c + (1 - alpha) * prev)
          :: ewmTail alpha (alpha * c + (1 - alpha) * prev) cs := rfl
    rcases t with _ | t
    · rw [hunfold]; simp
    · have ht' : t < cs.length := by simpa using ht
      have H := ih (alpha * c + (1 - alpha) * prev) t ht'
      rw [hunfold]
      simp only [List.getD_cons_succ, Nat.succ_ne_zero, if_false, Nat.add_sub_cancel]
      rw [H]
      rcases t with _ | t
      · simp
      · simp

end EmaLemmas

/-- C5: for every non-empty series, `calculate_ema` with window 50 returns a
sequence of the same length as the input, whose first entry is the first close
and which satisfies `EMA[t] = a * Close[t] + (1 - a) * EMA[t-1]` for `t ≥ 1`,
with `a = 2 / 51`. -/
theorem C5_ema_recurrence (data : List Bar) (h : data ≠ []) :
    (calculate_ema data 50).length = data.length ∧
    (calculate_ema data 50).getD 0 0 = (data.map Bar.close).getD 0 0 ∧
    ∀ t : ℕ, 0 < t → t < data.length →
      (calculate_ema data 50).getD t 0
        = 2 / 51 * (data.map Bar.close).getD t 0
          + (1 - 2 / 51) * (calculate_ema data 50).getD (t - 1) 0 := by
  rcases hd : data.map Bar.close with _ | ⟨c, cs⟩
  · exact absurd (List.map_eq_nil_iff.mp hd) h
  · have hlen : data.length = cs.length + 1 := by
      have := congrArg List.length hd
      simp at this
      omega
    have hema : calculate_ema data 50 = c :: ewmTail (2 / 51) c cs := by
      simp only [calculate_ema, hd]
      norm_num
    refine ⟨?_, ?_, ?_⟩
    · rw [hema]; simp [ewmTail_length, hlen]
    · rw [hema]; simp
    · intro t ht htlen
      rcases t with _ | t
      · omega
      · have ht' : t < cs.length := by omega
        have H := ewmTail_getD (2 / 51) cs c t ht'
        rw [hema]
        simp only [List.getD_cons_succ, Nat.add_sub_cancel]
        rw [H]
        rcases t with _ | t
        · simp
        · simp

/-- C5 witness: the recurrence evaluated on a concrete two-bar series. -/
theorem C5_ema_recurrence_witness :
    (calculate_ema [mkBar 1 1 3 1, mkBar 1 1 5 1] 50).length
        = ([mkBar 1 1 3 1, mkBar 1 1 5 1] : List Bar).length ∧
    (calculate_ema [mkBar 1 1 3 1, mkBar 1 1 5 1] 50).getD 0 0
        = (([mkBar 1 1 3 1, mkBar 1 1 5 1] : List Bar).map Bar.close).getD 0 0 ∧
    ∀ t : ℕ, 0 < t → t < ([mkBar 1 1 3 1, mkBar 1 1 5 1] : List Bar).length →
      (calculate_ema [mkBar 1 1 3 1, mkBar 1 1 5 1] 50).getD t 0
        = 2 / 51 * (([mkBar 1 1 3 1, mkBar 1 1 5 1] : List Bar).map Bar.close).getD t 0
          + (1 - 2 / 51) * (calculate_ema [mkBar 1 1 3 1, mkBar 1 1 5 1] 50).getD (t - 1) 0 :=
  C5_ema_recurrence [mkBar 1 1 3 1, mkBar 1 1 5 1] (by decide)

theorem ewmTail_const (alpha c : ℚ) :
    ∀ (cs : List ℚ), (∀ y ∈ cs, y = c) → ∀ e ∈ ewmTail alpha c cs, e = c := by
  intro cs
  induction cs with
  | nil => intro _ e he; simp [ewmTail] at he
  | cons b cs ih =>
    intro hall e he
    have hb : b = c := hall b (List.mem_cons_self b cs)
    subst hb
    have hrw : ewmTail alpha b (b :: cs) = b :: ewmTail alpha b cs := by
      show (alpha * b + (1 - alpha) * b) :: ewmTail alpha (alpha * b + (1 - alpha) * b) cs
          = b :: ewmTail alpha b cs
      have hb2 : alpha * b + (1 - alpha) * b = b := by ring
      rw [hb2]
    rw [hrw] at he
    rcases List.mem_cons.mp he with h1 | h1
    · exact h1
    · exact ih (fun y hy => hall y (List.mem_cons_of_mem b hy)) e h1

/-- C6: the EMA of a series whose close is the constant `c` at every bar equals
`c` at every index. -/
theorem C6_ema_const (data : List Bar) (c : ℚ) (_hne : data ≠ [])
    (hc : ∀ b ∈ data, b.close = c) :
    ∀ e ∈ calculate_ema data 50, e = c := by
  intro e he
  have hall : ∀ y ∈ data.map Bar.close, y = c := by
    intro y hy
    rcases List.mem_map.mp hy with ⟨b, hb, rfl⟩
    exact hc b hb
  rcases hd : data.map Bar.close with _ | ⟨c0, cs⟩
  · simp only [calculate_ema, hd] at he; simp at he
  · have hc0 : c0 = c := hall c0 (by rw [hd]; exact List.mem_cons_self c0 cs)
    subst hc0
    simp only [calculate_ema, hd] at he
    rcases List.mem_cons.mp he with h1 | h1
    · exact h1
    · exact ewmTail_const _ c0 cs
        (fun y hy => hall y (by rw [hd]; exact List.mem_cons_of_mem c0 hy)) e h1

/-- C6 witness: the first EMA entry of a concrete constant-close series is the
constant (obtained by applying the constancy theorem to that entry). -/
theorem C6_ema_const_witness :
    (calculate_ema [mkBar 2 2 7 1, mkBar 2 2 7 1, mkBar 2 2 7 1] 50).getD 0 0 = 7 :=
  C6_ema_const [mkBar 2 2 7 1, mkBar 2 2 7 1, mkBar 2 2 7 1] 7 (by decide) (by decide)
    ((calculate_ema [mkBar 2 2 7 1, mkBar 2 2 7 1, mkBar 2 2 7 1] 50).getD 0 0)
    (by with_unfolding_all decide)

/-!
Embedding of `scipy.signal.find_peaks(x, distance=5, prominence=1)` as used by
`get_support_resistance_levels`.  The three stages of the scipy implementation
are modelled one to one:

1. `_local_maxima_1d`: scan `i` from 1 to `len - 2`; on a strict ascent,
   scan ahead over the plateau of equal values; if the value after the plateau
   is strictly smaller, record the plateau midpoint and resume after the
   plateau.  The scan loops are compiled to structural recursion on an
   explicit fuel counter which over-approximates the remaining iterations
   (`fuel = 0` coincides with the loop bound `i < i_max` being false).
2. `_select_by_peak_distance`: process peak positions by descending priority
   (priority = the signal value at the peak); a still-kept peak clears the
   keep flag of every other peak whose index is closer than `distance`.
   scipy scans left and right with while loops that stop at the first far
   peak; because the midpoint list is strictly increasing this equals
   clearing every strictly-closer peak, which is how `removeClose` states it.
   scipy orders equal priorities by an unstable argsort; the embedding breaks
   ties deterministically by position, which is one of the admissible
   behaviours.
3. prominence filter: keep peaks whose prominence (peak value minus the
   higher of the two base minima, scanning outwards until a strictly higher
   value or the border) is at least `prominence`.
-/

/-- The inner plateau scan of `_local_maxima_1d`: starting at `j`, advance
while the value equals `v` and the border `i_max` is not reached (`fuel`
counts the remaining distance to the border). -/
def plateauEnd (x : ℕ → ℚ) (v : ℚ) : ℕ → ℕ → ℕ
  | 0, j => j
  | fuel + 1, j => if x j = v then plateauEnd x v fuel (j + 1) else j

/-- The main scan of `_local_maxima_1d` (`fuel` bounds the remaining
iterations of the while loop; every recursive call advances `i` by at least
one). -/
def lmAux (x : ℕ → ℚ) (iMax : ℕ) : ℕ → ℕ → List ℕ
  | 0, _ => []
  | fuel + 1, i =>
    if i < iMax then
      if x (i - 1) < x i then
        if x (plateauEnd x (x i) (iMax - (i + 1)) (i + 1)) < x i then
          (i + (plateauEnd x (x i) (iMax - (i + 1)) (i + 1) - 1)) / 2
            :: lmAux x iMax fuel (plateauEnd x (x i) (iMax - (i + 1)) (i + 1) + 1)
        else lmAux x iMax fuel (i + 1)
      else lmAux x iMax fuel (i + 1)
    else []

/-- `_local_maxima_1d(x)`: midpoints of interior strict local maxima (plateau
edges excluded, boundary samples never peaks). -/
def localMaxima (x : List ℚ) : List ℕ :=
  lmAux (fun i => x.getD i 0) (x.length - 1) (x.length - 1) 1

/-- Left base scan of `_peak_prominences`: walk left from the current
position while the value does not exceed the peak value, accumulating the
minimum. -/
def promLeftMin (x : ℕ → ℚ) (xpeak : ℚ) : ℕ → ℚ → ℚ
  | 0, m => m
  | p + 1, m => if x (p + 1) ≤ xpeak then promLeftMin x xpeak p (min m (x p)) else m

/-- Right base scan of `_peak_prominences` (`fuel` is the distance to the
right border `i_max`). -/
def promRightMin (x : ℕ → ℚ) (xpeak : ℚ) : ℕ → ℕ → ℚ → ℚ
  | 0, _, m => m
  | fuel + 1, p, m =>
    if x p ≤ xpeak then promRightMin x xpeak fuel (p + 1) (min m (x (p + 1))) else m

/-- Prominence of a peak: peak value minus the larger of the two base
minima. -/
def prominence (x : List ℚ) (peak : ℕ) : ℚ :=
  (x.getD peak 0)
    - max (promLeftMin (fun i => x.getD i 0) (x.getD peak 0) peak (x.getD peak 0))
        (promRightMin (fun i => x.getD i 0) (x.getD peak 0) (x.length - 1 - peak) peak
          (x.getD peak 0))

/-- One step of `_select_by_peak_distance`: the still-kept peak at position
`j` clears the keep flag of every other position whose peak index is closer
than `dist`. -/
def removeClose (peaks : List ℕ) (dist j : ℕ) (keep : ℕ → Bool) : ℕ → Bool :=
  fun k =>
    if k = j then keep k
    else if Nat.dist (peaks.getD k 0) (peaks.getD j 0) < dist then false
    else keep k

/-- Fold of `_select_by_peak_distance` over the processing order (positions by
descending priority): skip already-removed positions, otherwise clear all
close neighbours. -/
def selectAux (peaks : List ℕ) (dist : ℕ) : List ℕ → (ℕ → Bool) → (ℕ → Bool)
  | [], keep => keep
  | j :: order, keep =>
    if keep j then selectAux peaks dist order (removeClose peaks dist j keep)
    else selectAux peaks dist order keep

/-- Ascending priority order with deterministic tie-break by position
(`np.argsort` of the priority array). -/
def priRel (pr : ℕ → ℚ) (a b : ℕ) : Prop := pr a < pr b ∨ (pr a = pr b ∧ a ≤ b)

instance (pr : ℕ → ℚ) : DecidableRel (priRel pr) := fun a b => by
  unfold priRel; infer_instance

/-- `np.argsort(priority)`: the positions `0, …, m-1` sorted by ascending
priority. -/
def argsortAsc (pr : ℕ → ℚ) (m : ℕ) : List ℕ :=
  List.insertionSort (priRel pr) (List.range m)

/-- `_select_by_peak_distance(peaks, priority, distance)`: the final keep
flags after processing all positions from highest to lowest priority. -/
def select_by_peak_distance (peaks : List ℕ) (pr : ℕ → ℚ) (dist : ℕ) : ℕ → Bool :=
  selectAux peaks dist ((argsortAsc pr peaks.length).reverse) (fun _ => true)

/-- `scipy.signal.find_peaks(x, distance=dist, prominence=pmin)`: local
maxima, then the distance filter, then the prominence filter. -/
def find_peaks (x : List ℚ) (dist : ℕ) (pmin : ℚ) : List ℕ :=
  (((List.range (localMaxima x).length).filter
      (fun j => select_by_peak_distance (localMaxima x)
        (fun a => x.getD ((localMaxima x).getD a 0) 0) dist j)).map
    (fun j => (localMaxima x).getD j 0)).filter
    (fun p => decide (pmin ≤ prominence x p))

/-- Support candidate indices of `get_support_resistance_levels`:
`find_peaks(-lows, distance=5, prominence=1)` on the trailing 50-bar
window. -/
def supportIdx (data : List Bar) : List ℕ :=
  find_peaks ((lastN (data.map Bar.low) 50).map Neg.neg) 5 1

/-- Resistance candidate indices of `get_support_resistance_levels`:
`find_peaks(highs, distance=5, prominence=1)` on the trailing 50-bar
window. -/
def resistanceIdx (data : List Bar) : List ℕ :=
  find_peaks (lastN (data.map Bar.high) 50) 5 1

/-- `get_support_resistance_levels` from src/analysis.py: the values of the
last three candidates on each side, sorted ascending (Python `sorted`). -/
def get_support_resistance_levels (data : List Bar) : LevelSet :=
  { support := List.insertionSort (· ≤ ·)
      (lastN ((supportIdx data).map fun i => (lastN (data.map Bar.low) 50).getD i 0) 3)
    resistance := List.insertionSort (· ≤ ·)
      (lastN ((resistanceIdx data).map fun i => (lastN (data.map Bar.high) 50).getD i 0) 3) }

section PeakLemmas

theorem plateauEnd_ge (x : ℕ → ℚ) (v : ℚ) :
    ∀ (fuel j : ℕ), j ≤ plateauEnd x v fuel j := by
  intro fuel
  induction fuel with
  | zero => intro j; exact Nat.le_refl j
  | succ fuel ih =>
    intro j
    simp only [plateauEnd]
    by_cases h : x j = v
    · rw [if_pos h]; exact Nat.le_trans (Nat.le_succ j) (ih (j + 1))
    · rw [if_neg h]

theorem lmAux_ge (x : ℕ → ℚ) (iMax : ℕ) :
    ∀ (fuel i : ℕ), ∀ p ∈ lmAux x iMax fuel i, i ≤ p := by
  intro fuel
  induction fuel with
  | zero => intro i p hp; simp [lmAux] at hp
  | succ fuel ih =>
    intro i p hp
    simp only [lmAux] at hp
    by_cases h1 : i < iMax
    · rw [if_pos h1] at hp
      by_cases h2 : x (i - 1) < x i
      · rw [if_pos h2] at hp
        by_cases h3 : x (plateauEnd x (x i) (iMax - (i + 1)) (i + 1)) < x i
        · rw [if_pos h3] at hp
          have hia := plateauEnd_ge x (x i) (iMax - (i + 1)) (i + 1)
          rcases List.mem_cons.mp hp with rfl | hp2
          · omega
          · have := ih _ p hp2
            omega
        · rw [if_neg h3] at hp
          have := ih _ p hp
          omega
      · rw [if_neg h2] at hp
        have := ih _ p hp
        omega
    · rw [if_neg h1] at hp
      simp at hp

theorem lmAux_pairwise (x : ℕ → ℚ) (iMax : ℕ) :
    ∀ (fuel i : ℕ), (lmAux x iMax fuel i).Pairwise (· < ·) := by
  intro fuel
  induction fuel with
  | zero => intro i; simp [lmAux]
  | succ fuel ih =>
    intro i
    simp only [lmAux]
    by_cases h1 : i < iMax
    · rw [if_pos h1]
      by_cases h2 : x (i - 1) < x i
      · rw [if_pos h2]
        by_cases h3 : x (plateauEnd x (x i) (iMax - (i + 1)) (i + 1)) < x i
        · rw [if_pos h3]
          refine List.Pairwise.cons ?_ (ih _)
          intro p hp
          have hge := lmAux_ge x iMax fuel _ p hp
          have hia := plateauEnd_ge x (x i) (iMax - (i + 1)) (i + 1)
          omega
        · rw [if_neg h3]; exact ih _
      · rw [if_neg h2]; exact ih _
    · rw [if_neg h1]; exact List.Pairwise.nil

theorem localMaxima_pairwise (x : List ℚ) : (localMaxima x).Pairwise (· < ·) :=
  lmAux_pairwise _ _ _ _

theorem selectAux_mono (peaks : List ℕ) (d : ℕ) :
    ∀ (order : List ℕ) (keep : ℕ → Bool) (k : ℕ),
      keep k = false → selectAux peaks d order keep k = false := by
  intro order
  induction order with
  | nil => intro keep k hk; exact hk
  | cons j rest ih =>
    intro keep k hk
    simp only [selectAux]
    by_cases hj : keep j = true
    · rw [if_pos hj]
      refine ih _ k ?_
      show (if k = j then keep k
            else if Nat.dist (peaks.getD k 0) (peaks.getD j 0) < d then false
            else keep k) = false
      by_cases e1 : k = j
      · rw [if_pos e1]; exact hk
      · rw [if_neg e1]
        by_cases e2 : Nat.dist (peaks.getD k 0) (peaks.getD j 0) < d
        · rw [if_pos e2]
        · rw [if_neg e2]; exact hk
    · rw [if_neg hj]; exact ih _ k hk

theorem selectAux_processed (peaks : List ℕ) (d : ℕ) :
    ∀ (order : List ℕ) (keep : ℕ → Bool) (j k : ℕ),
      j ∈ order → k ≠ j →
      Nat.dist (peaks.getD k 0) (peaks.getD j 0) < d →
      selectAux peaks d order keep j = true →
      selectAux peaks d order keep k = false := by
  intro order
  induction order with
  | nil =>
    intro keep j k hjmem
    exact absurd hjmem (List.not_mem_nil j)
  | cons j' rest ih =>
    intro keep j k hjmem hne hclose hj
    simp only [selectAux] at hj ⊢
    by_cases hj' : keep j' = true
    · rw [if_pos hj'] at hj ⊢
      rcases List.mem_cons.mp hjmem with rfl | hjr
      · apply selectAux_mono
        show (if k = j then keep k
              else if Nat.dist (peaks.getD k 0) (peaks.getD j 0) < d then false
              else keep k) = false
        rw [if_neg hne, if_pos hclose]
      · exact ih _ j k hjr hne hclose hj
    · rw [if_neg hj'] at hj ⊢
      rcases List.mem_cons.mp hjmem with rfl | hjr
      · have hkf : keep j = false := by
          cases hkeep : keep j
          · rfl
          · exact absurd hkeep hj'
        have := selectAux_mono peaks d rest keep j hkf
        rw [this] at hj
        cases hj
      · exact ih _ j k hjr hne hclose hj

theorem select_kept_far (peaks : List ℕ) (pr : ℕ → ℚ) (d j k : ℕ)
    (hj : j < peaks.length) (hne : k ≠ j)
    (hjt : select_by_peak_distance peaks pr d j = true)
    (hkt : select_by_peak_distance peaks pr d k = true) :
    ¬ Nat.dist (peaks.getD k 0) (peaks.getD j 0) < d := by
  intro hclose
  unfold select_by_peak_distance at hjt hkt
  have hjmem : j ∈ (argsortAsc pr peaks.length).reverse := by
    rw [List.mem_reverse]
    exact ((List.perm_insertionSort (priRel pr) (List.range peaks.length)).mem_iff).mpr
      (List.mem_range.mpr hj)
  have hfin := selectAux_processed peaks d ((argsortAsc pr peaks.length).reverse)
    (fun _ => true) j k hjmem hne hclose hjt
  rw [hfin] at hkt
  cases hkt

theorem getD_lt_of_pairwise {l : List ℕ} (hp : l.Pairwise (· < ·)) {a b : ℕ}
    (ha : a < l.length) (hb : b < l.length) (hab : a < b) :
    l.getD a 0 < l.getD b 0 := by
  have h1 : l.getD a 0 = l.get ⟨a, ha⟩ := by
    simp [List.getD_eq_getElem?_getD, List.getElem?_eq_getElem ha, List.get_eq_getElem]
  have h2 : l.getD b 0 = l.get ⟨b, hb⟩ := by
    simp [List.getD_eq_getElem?_getD, List.getElem?_eq_getElem hb, List.get_eq_getElem]
  rw [h1, h2]
  exact List.pairwise_iff_get.mp hp ⟨a, ha⟩ ⟨b, hb⟩ (by simpa using hab)

theorem find_peaks_sep (x : List ℚ) (d : ℕ) (pmin : ℚ) :
    (find_peaks x d pmin).Pairwise (fun a b => a + d ≤ b) := by
  have hmids : (localMaxima x).Pairwise (· < ·) := localMaxima_pairwise x
  have hbase : ((List.range (localMaxima x).length).filter
      (fun j => select_by_peak_distance (localMaxima x)
        (fun a => x.getD ((localMaxima x).getD a 0) 0) d j)).Pairwise (· < ·) :=
    List.Pairwise.sublist (List.filter_sublist _) (List.pairwise_lt_range _)
  unfold find_peaks
  refine List.Pairwise.filter _ ?_
  rw [List.pairwise_map]
  refine List.Pairwise.imp_of_mem ?_ hbase
  intro a b ha hb hab
  have ham := List.mem_filter.mp ha
  have hbm := List.mem_filter.mp hb
  have ha2 : a < (localMaxima x).length := List.mem_range.mp ham.1
  have hb2 : b < (localMaxima x).length := List.mem_range.mp hbm.1
  have hka : select_by_peak_distance (localMaxima x)
      (fun a => x.getD ((localMaxima x).getD a 0) 0) d a = true := by
    simpa using ham.2
  have hkb : select_by_peak_distance (localMaxima x)
      (fun a => x.getD ((localMaxima x).getD a 0) 0) d b = true := by
    simpa using hbm.2
  have hlt : (localMaxima x).getD a 0 < (localMaxima x).getD b 0 :=
    getD_lt_of_pairwise hmids ha2 hb2 hab
  have hfar := select_kept_far (localMaxima x)
    (fun a => x.getD ((localMaxima x).getD a 0) 0) d a b ha2 (Nat.ne_of_gt hab) hka hkb
  have hdist : Nat.dist ((localMaxima x).getD b 0) ((localMaxima x).getD a 0)
      = (localMaxima x).getD b 0 - (localMaxima x).getD a 0 + ((localMaxima x).getD a 0
        - (localMaxima x).getD b 0) := rfl
  omega

theorem lastN_length_le (l : List ℚ) (k : ℕ) : (lastN l k).length ≤ k := by
  simp only [lastN, List.length_drop]
  omega

end PeakLemmas

/-- C7: each side of the level set holds at most 3 prices, is sorted
ascending, and is (as a multiset) exactly the last at-most-3 qualifying
candidates of the trailing 50-bar window; fewer candidates, including none,
is a normal outcome. -/
theorem C7_levels_shape (data : List Bar) :
    ((get_support_resistance_levels data).support.length ≤ 3 ∧
     (get_support_resistance_levels data).resistance.length ≤ 3) ∧
    ((get_support_resistance_levels data).support.Sorted (· ≤ ·) ∧
     (get_support_resistance_levels data).resistance.Sorted (· ≤ ·)) ∧
    ((get_support_resistance_levels data).support.Perm
        (lastN ((supportIdx data).map fun i => (lastN (data.map Bar.low) 50).getD i 0) 3) ∧
     (get_support_resistance_levels data).resistance.Perm
        (lastN ((resistanceIdx data).map fun i => (lastN (data.map Bar.high) 50).getD i 0) 3)) := by
  simp only [get_support_resistance_levels]
  refine ⟨⟨?_, ?_⟩, ⟨?_, ?_⟩, ?_, ?_⟩
  · rw [(List.perm_insertionSort _ _).length_eq]
    exact lastN_length_le _ 3
  · rw [(List.perm_insertionSort _ _).length_eq]
    exact lastN_length_le _ 3
  · exact List.sorted_insertionSort _ _
  · exact List.sorted_insertionSort _ _
  · exact List.perm_insertionSort _ _
  · exact List.perm_insertionSort _ _

/-- C8: any two candidate levels on the same side sit at source-window bar
indices at least `minSeparation = 5` apart; the returned level values are the
values at (the last three of) exactly these indices. -/
theorem C8_level_separation (data : List Bar) :
    (supportIdx data).Pairwise (fun a b => a + 5 ≤ b) ∧
    (resistanceIdx data).Pairwise (fun a b => a + 5 ≤ b) :=
  ⟨find_peaks_sep _ 5 1, find_peaks_sep _ 5 1⟩

/-- C9: the verdict is strong-buy iff at least 5 of the six checklist booleans
are true, neutral iff the count is in [3, 5), and avoid iff it is below 3; the
classification depends only on the six booleans. -/
theorem C9_verdict_classification (s : Checklist) :
    (verdictOf s = Verdict.strongBuy ↔ 5 ≤ passingCount s) ∧
    (verdictOf s = Verdict.neutralCaution ↔ 3 ≤ passingCount s ∧ passingCount s < 5) ∧
    (verdictOf s = Verdict.avoidTrade ↔ passingCount s < 3) := by
  rcases s with ⟨u, hh, nr, vs, cl, rr⟩
  cases u <;> cases hh <;> cases nr <;> cases vs <;> cases cl <;> cases rr <;> decide

/-!
Embedding of `analyze_stock` (src/analysis.py, lines 64-130).  The function
receives the fetched series (`none` when `get_stock_data` returned None),
rejects series shorter than 20 bars, and otherwise runs the analysis stage
`analyze_core` whose fallible sequence accesses are `Option`-valued; a `none`
from `analyze_core` corresponds to an exception caught by the broad
`except` clause (which prints and returns None).
-/

/-- The Close column of the frame. -/
def closesOf (data : List Bar) : List ℚ := data.map Bar.close

/-- Value of the last close, `iloc[-1]` of the Close column (total accessor;
`analyze_core` performs the fallible access itself). -/
def lastClose (data : List Bar) : ℚ := (closesOf data).getLast?.getD 0

/-- Value of `ema_50.iloc[-1]`. -/
def emaLast (data : List Bar) : ℚ := (calculate_ema data 50).getLast?.getD 0

/-- `uptrend = last_close > ema_last`. -/
def uptrendB (data : List Bar) : Bool := decide (emaLast data < lastClose data)

/-- The High column as a 1-d array, sliced `[-3:]`. -/
def highs3 (data : List Bar) : List ℚ := lastN (data.map Bar.high) 3

/-- The Low column as a 1-d array, sliced `[-3:]`. -/
def lows3 (data : List Bar) : List ℚ := lastN (data.map Bar.low) 3

/-- The Volume column as a 1-d array, sliced `[-10:]`. -/
def volumes10 (data : List Bar) : List ℚ := lastN (data.map Bar.volume) 10

/-- `hh_hl = (highs[-1] > highs[-2] > highs[-3]) and (lows[-1] > lows[-2] > lows[-3])`
over the trailing three bars, written with the negative-index accessors. -/
def hhHlB (data : List Bar) : Bool :=
  decide ((getNeg (highs3 data) 2).getD 0 < (getNeg (highs3 data) 1).getD 0)
    && decide ((getNeg (highs3 data) 3).getD 0 < (getNeg (highs3 data) 2).getD 0)
    && decide ((getNeg (lows3 data) 2).getD 0 < (getNeg (lows3 data) 1).getD 0)
    && decide ((getNeg (lows3 data) 3).getD 0 < (getNeg (lows3 data) 2).getD 0)

/-- `near_resistance = any(abs(last_close - level) / level < 0.02 for level in
the resistance list)`. -/
def nearResistanceB (data : List Bar) : Bool :=
  (get_support_resistance_levels data).resistance.any
    (fun lv => decide (|lastClose data - lv| / lv < 2 / 100))

/-- `volume_spike = volumes[-1] > np.mean(volumes[:-1]) * 1.5`. -/
def volumeSpikeB (data : List Bar) : Bool :=
  decide (npMean (volumes10 data).dropLast * (3 / 2) < (getNeg (volumes10 data) 1).getD 0)

/-- True range at bar `t` (`t ≥ 1`):
`np.maximum.reduce([high - low, abs(high - prev_close), abs(low - prev_close)])`. -/
def trAt (data : List Bar) (t : ℕ) : ℚ :=
  max (max ((data.map Bar.high).getD t 0 - (data.map Bar.low).getD t 0)
      |(data.map Bar.high).getD t 0 - (closesOf data).getD (t - 1) 0|)
    |(data.map Bar.low).getD t 0 - (closesOf data).getD (t - 1) 0|

/-- `atr = pd.Series(tr).rolling(14).mean().iloc[-1]`: the mean of the last 14
true ranges.  The value is NaN when fewer than 14 windows exist or when the
window touches index 0 (whose previous close is NaN after `shift(1)`), i.e.
whenever the length is below 15; NaN is modelled as `none`.  Behind the
20-bar guard this case cannot arise. -/
def atrOpt (data : List Bar) : Option ℚ :=
  if 15 ≤ data.length then
    some ((((List.range 14).map fun i => trAt data (data.length - 14 + i)).sum) / 14)
  else none

/-- Value of the latest ATR (total accessor for result statements). -/
def atrV (data : List Bar) : ℚ := (atrOpt data).getD 0

/-- `stop_loss = last_close - 2 * atr`. -/
def stopLossV (data : List Bar) : ℚ := lastClose data - 2 * atrV data

/-- `target = last_close + 4 * atr`. -/
def targetV (data : List Bar) : ℚ := lastClose data + 4 * atrV data

/-- `rr_ratio = (target - last_close) / (last_close - stop_loss)`.
In ℚ a zero denominator yields 0; in the source the same case is a numpy
0.0/0.0 yielding NaN with a warning — in both semantics `rr_ratio >= 2` is
then false and no exception is raised. -/
def rrRatioV (data : List Bar) : ℚ :=
  (targetV data - lastClose data) / (lastClose data - stopLossV data)

/-- The body of the `try` block of `analyze_stock`: every sequence access that
can raise in Python is an `Option` access, so `none` here is exactly "the
except branch would run and return None". -/
def analyze_core (data : List Bar) : Option AnalysisResult := do
  let last_close ← (closesOf data).getLast?
  let ema_last ← (calculate_ema data 50).getLast?
  let uptrend := decide (ema_last < last_close)
  let h1 ← getNeg (highs3 data) 1
  let h2 ← getNeg (highs3 data) 2
  let h3 ← getNeg (highs3 data) 3
  let l1 ← getNeg (lows3 data) 1
  let l2 ← getNeg (lows3 data) 2
  let l3 ← getNeg (lows3 data) 3
  let hh_hl := decide (h2 < h1) && decide (h3 < h2) && decide (l2 < l1) && decide (l3 < l2)
  let near_resistance := (get_support_resistance_levels data).resistance.any
    (fun lv => decide (|last_close - lv| / lv < 2 / 100))
  let v_last ← getNeg (volumes10 data) 1
  let volume_spike := decide (npMean (volumes10 data).dropLast * (3 / 2) < v_last)
  let atr ← atrOpt data
  let stop_loss := last_close - 2 * atr
  let target := last_close + 4 * atr
  let rr_ratio := (target - last_close) / (last_close - stop_loss)
  some
    { results :=
        { uptrend := uptrend
          hh_hl := hh_hl
          near_resistance := near_resistance
          volume_spike := volume_spike
          clear_levels := true
          good_rr := decide (2 ≤ rr_ratio) }
      levels := get_support_resistance_levels data
      stop_loss := round2 stop_loss
      target := round2 target
      rr_ratio := round2 rr_ratio
      data := data
      ema_50 := calculate_ema data 50 }

/-- `analyze_stock`: reject a missing series or one shorter than 20 bars,
otherwise run the analysis stage. -/
def analyze_stock (fetched : Option (List Bar)) : Option AnalysisResult :=
  match fetched with
  | none => none
  | some data => if data.length < 20 then none else analyze_core data

/-- The result record produced behind the 20-bar guard, written with the total
accessors; `analyze_core_eq` below proves that `analyze_core` returns exactly
this record. -/
def resultOf (data : List Bar) : AnalysisResult :=
  { results :=
      { uptrend := uptrendB data
        hh_hl := hhHlB data
        near_resistance := nearResistanceB data
        volume_spike := volumeSpikeB data
        clear_levels := true
        good_rr := decide (2 ≤ rrRatioV data) }
    levels := get_support_resistance_levels data
    stop_loss := round2 (stopLossV data)
    target := round2 (targetV data)
    rr_ratio := round2 (rrRatioV data)
    data := data
    ema_50 := calculate_ema data 50 }

section AnalyzeLemmas

theorem opt_eq_some_getD {α : Type _} (o : Option α) (d : α) (h : o.isSome = true) :
    o = some (o.getD d) := by
  cases o with
  | none => cases h
  | some a => rfl

theorem getNeg_isSome (l : List ℚ) (k : ℕ) (h1 : 1 ≤ k) (h2 : k ≤ l.length) :
    (getNeg l k).isSome = true := by
  unfold getNeg
  rw [if_pos ⟨h1, h2⟩, List.get?_eq_getElem?,
    List.getElem?_eq_getElem (show l.length - k < l.length by omega)]
  rfl

theorem highs3_length (data : List Bar) (h : 3 ≤ data.length) :
    (highs3 data).length = 3 := by
  simp only [highs3, lastN, List.length_drop, List.length_map]
  omega

theorem lows3_length (data : List Bar) (h : 3 ≤ data.length) :
    (lows3 data).length = 3 := by
  simp only [lows3, lastN, List.length_drop, List.length_map]
  omega

theorem volumes10_length (data : List Bar) (h : 10 ≤ data.length) :
    (volumes10 data).length = 10 := by
  simp only [volumes10, lastN, List.length_drop, List.length_map]
  omega

theorem atrOpt_isSome (data : List Bar) (h : 15 ≤ data.length) :
    (atrOpt data).isSome = true := by
  unfold atrOpt
  rw [if_pos h]
  rfl

/-- Normal form of the analysis stage behind the 20-bar guard: every fallible
access succeeds and the result record is built from the total accessors. -/
theorem analyze_core_eq (data : List Bar) (h : 20 ≤ data.length) :
    analyze_core data = some (resultOf data) := by
  have hcne : closesOf data ≠ [] := by
    intro e
    have h0 : data.length = 0 := by
      have h2 := congrArg List.length e
      simpa [closesOf] using h2
    omega
  have hc : (closesOf data).getLast? = some (lastClose data) :=
    opt_eq_some_getD _ 0 (List.getLast?_isSome.mpr hcne)
  have hene : calculate_ema data 50 ≠ [] := by
    intro e
    have h0 : data.length = 0 := by
      have h2 := congrArg List.length e
      rw [calculate_ema_length] at h2
      simpa using h2
    omega
  have hema : (calculate_ema data 50).getLast? = some (emaLast data) :=
    opt_eq_some_getD _ 0 (List.getLast?_isSome.mpr hene)
  have hlen3h : (highs3 data).length = 3 := highs3_length data (by omega)
  have hlen3l : (lows3 data).length = 3 := lows3_length data (by omega)
  have hlen10 : (volumes10 data).length = 10 := volumes10_length data (by omega)
  have hh1 : getNeg (highs3 data) 1 = some ((getNeg (highs3 data) 1).getD 0) :=
    opt_eq_some_getD _ 0 (getNeg_isSome _ 1 (by omega) (by omega))
  have hh2 : getNeg (highs3 data) 2 = some ((getNeg (highs3 data) 2).getD 0) :=
    opt_eq_some_getD _ 0 (getNeg_isSome _ 2 (by omega) (by omega))
  have hh3 : getNeg (highs3 data) 3 = some ((getNeg (highs3 data) 3).getD 0) :=
    opt_eq_some_getD _ 0 (getNeg_isSome _ 3 (by omega) (by omega))
  have hl1 : getNeg (lows3 data) 1 = some ((getNeg (lows3 data) 1).getD 0) :=
    opt_eq_some_getD _ 0 (getNeg_isSome _ 1 (by omega) (by omega))
  have hl2 : getNeg (lows3 data) 2 = some ((getNeg (lows3 data) 2).getD 0) :=
    opt_eq_some_getD _ 0 (getNeg_isSome _ 2 (by omega) (by omega))
  have hl3 : getNeg (lows3 data) 3 = some ((getNeg (lows3 data) 3).getD 0) :=
    opt_eq_some_getD _ 0 (getNeg_isSome _ 3 (by omega) (by omega))
  have hv1 : getNeg (volumes10 data) 1 = some ((getNeg (volumes10 data) 1).getD 0) :=
    opt_eq_some_getD _ 0 (getNeg_isSome _ 1 (by omega) (by omega))
  have hatr : atrOpt data = some (atrV data) :=
    opt_eq_some_getD _ 0 (atrOpt_isSome data (by omega))
  unfold analyze_core
  rw [hc, hema, hh1, hh2, hh3, hl1, hl2, hl3, hv1, hatr]
  rfl

end AnalyzeLemmas

/-- C10: for every cleaned series of at least 20 bars, every sequence access
of the analysis stage is within bounds and the pipeline is total: it returns a
result and the error branch is never taken. -/
theorem C10_analysis_total (data : List Bar) (h : 20 ≤ data.length) :
    (analyze_stock (some data)).isSome = true := by
  simp only [analyze_stock]
  rw [if_neg (by omega : ¬ data.length < 20), analyze_core_eq data h]
  rfl

/-- Rising 21-bar demonstration series. -/
def rising21 : List Bar :=
  (List.range 21).map fun i => mkBar ((50 : ℚ) + i + 2) ((50 : ℚ) + i) ((50 : ℚ) + i + 1) 500

/-- C10 witness: the pipeline is total on a concrete 21-bar series. -/
theorem C10_analysis_total_witness :
    20 ≤ rising21.length ∧ (analyze_stock (some rising21)).isSome = true :=
  ⟨by decide, C10_analysis_total rising21 (by decide)⟩

/-- C4: a missing series and every series of fewer than 20 bars are rejected
at the guard, before any indicator, level, pattern or risk computation runs. -/
theorem C4_short_series_none :
    analyze_stock none = none ∧
    ∀ data : List Bar, data.length < 20 → analyze_stock (some data) = none := by
  constructor
  · rfl
  · intro data h
    simp only [analyze_stock]
    rw [if_pos h]

/-- C4 witness: the guard fires on a concrete 5-bar series. -/
theorem C4_short_series_none_witness :
    analyze_stock none = none ∧
    analyze_stock (some (List.replicate 5 (mkBar 1 1 1 1))) = none :=
  ⟨C4_short_series_none.1, C4_short_series_none.2 (List.replicate 5 (mkBar 1 1 1 1)) (by decide)⟩

/-- C1 (amended): the near-resistance signal is true iff some detected
resistance level is within 2 percent of the last close in relative terms,
`abs(lastClose - level) / level < 0.02` — the code compares symmetrically, so
levels at or below the last close also qualify. -/
theorem C1_near_resistance_iff (data : List Bar) (h : 20 ≤ data.length) :
    ∃ r, analyze_stock (some data) = some r ∧
      (r.results.near_resistance = true ↔
        ∃ lv ∈ r.levels.resistance, |lastClose data - lv| / lv < 2 / 100) := by
  refine ⟨resultOf data, ?_, ?_⟩
  · simp only [analyze_stock]
    rw [if_neg (by omega : ¬ data.length < 20)]
    exact analyze_core_eq data h
  · simp only [resultOf]
    simp only [nearResistanceB, List.any_eq_true, decide_eq_true_eq]

/-- Twenty-bar series with one prominent high of 100 at index 10 and a final
close of 101: the detected resistance level 100 lies strictly below the last
close yet within 2 percent of it. -/
def c1Data : List Bar :=
  List.replicate 10 (mkBar 90 80 90 1000) ++ [mkBar 100 80 90 1000]
    ++ List.replicate 8 (mkBar 90 80 90 1000) ++ [mkBar 101 80 101 1000]

set_option maxRecDepth 100000 in
/-- C1 counterexample: on `c1Data` the signal fires although no resistance
level lies strictly above the last close, refuting the claim that levels at or
below the last close never make the signal true. -/
theorem C1_near_resistance_cex :
    Option.map (fun r => r.results.near_resistance) (analyze_stock (some c1Data)) = some true
    ∧ Option.map (fun r => r.levels.resistance.any fun lv => decide (lastClose c1Data < lv))
        (analyze_stock (some c1Data)) = some false := by
  constructor
  · with_unfolding_all decide
  · with_unfolding_all decide

/-- C1 witness: the amended equivalence instantiated on `c1Data`. -/
theorem C1_near_resistance_iff_witness :
    ∃ r, analyze_stock (some c1Data) = some r ∧
      (r.results.near_resistance = true ↔
        ∃ lv ∈ r.levels.resistance, |lastClose c1Data - lv| / lv < 2 / 100) :=
  C1_near_resistance_iff c1Data (by decide)

/-- C2 (amended): behind the 20-bar guard the risk computation gives
`rrRatio = 2` exactly and a true `goodRR` whenever the latest ATR is nonzero;
when the ATR is zero the ratio is degenerate (NaN in the source, 0 in ℚ) and
`goodRR` is false, so the claim does not hold in all cases. -/
theorem C2_rr_ratio_two (data : List Bar) (h : 20 ≤ data.length) :
    ∃ r, analyze_stock (some data) = some r ∧
      (atrV data ≠ 0 → r.rr_ratio = 2 ∧ r.results.good_rr = true) ∧
      (atrV data = 0 → r.results.good_rr = false) := by
  refine ⟨resultOf data, ?_, ?_, ?_⟩
  · simp only [analyze_stock]
    rw [if_neg (by omega : ¬ data.length < 20)]
    exact analyze_core_eq data h
  · intro ha
    have hrr : rrRatioV data = 2 := by
      unfold rrRatioV targetV stopLossV
      have hnum : lastClose data + 4 * atrV data - lastClose data = 4 * atrV data := by ring
      have hden : lastClose data - (lastClose data - 2 * atrV data) = 2 * atrV data := by ring
      rw [hnum, hden, div_eq_iff (mul_ne_zero two_ne_zero ha)]
      ring
    simp only [resultOf]
    rw [hrr]
    constructor
    · with_unfolding_all decide
    · with_unfolding_all decide
  · intro ha
    have hrr : rrRatioV data = 0 := by
      unfold rrRatioV targetV stopLossV
      rw [ha]
      simp
    simp only [resultOf]
    rw [hrr]
    with_unfolding_all decide

/-- Flat 22-bar series: every true range is zero, so the latest ATR is 0. -/
def flat22 : List Bar := List.replicate 22 (mkBar 50 50 50 800)

/-- C2 counterexample: a flat series passes the 20-bar guard, has ATR 0, and
its result has `goodRR = false`, refuting "goodRR is true in all cases". -/
theorem C2_rr_ratio_cex :
    atrV flat22 = 0 ∧
    Option.map (fun r => r.results.good_rr) (analyze_stock (some flat22)) = some false := by
  constructor
  · with_unfolding_all decide
  · with_unfolding_all decide

/-- C2 witness: the amended statement instantiated on a rising 20-bar series
with nonzero ATR. -/
def rising20 : List Bar :=
  (List.range 20).map fun i => mkBar ((100 : ℚ) + i + 1) ((100 : ℚ) + i - 1) ((100 : ℚ) + i) 1000

/-- C2 witness theorem. -/
theorem C2_rr_ratio_two_witness :
    ∃ r, analyze_stock (some rising20) = some r ∧
      (atrV rising20 ≠ 0 → r.rr_ratio = 2 ∧ r.results.good_rr = true) ∧
      (atrV rising20 = 0 → r.results.good_rr = false) :=
  C2_rr_ratio_two rising20 (by decide)

/-- C3 (amended): a zero ATR (stop-loss equal to last close, zero risk-ratio
denominator) does not fail and is not converted to None: the analysis
completes normally and returns a result whose `goodRR` is false; no fault
reaches the caller. -/
theorem C3_degenerate_still_result (data : List Bar) (h20 : 20 ≤ data.length)
    (hz : atrOpt data = some 0) :
    ∃ r, analyze_stock (some data) = some r ∧ r.results.good_rr = false := by
  have hv : atrV data = 0 := by
    unfold atrV
    rw [hz]
    rfl
  refine ⟨resultOf data, ?_, ?_⟩
  · simp only [analyze_stock]
    rw [if_neg (by omega : ¬ data.length < 20)]
    exact analyze_core_eq data h20
  · have hrr : rrRatioV data = 0 := by
      unfold rrRatioV targetV stopLossV
      rw [hv]
      simp
    simp only [resultOf]
    rw [hrr]
    with_unfolding_all decide

/-- Flat 20-bar series with zero true range everywhere. -/
def flat20 : List Bar := List.replicate 20 (mkBar 100 100 100 1000)

/-- C3 counterexample: with ATR 0 the analysis still returns a result (it is
not the None outcome the claim requires). -/
theorem C3_degenerate_cex :
    atrOpt flat20 = some 0 ∧ (analyze_stock (some flat20)).isSome = true := by
  constructor
  · with_unfolding_all decide
  · with_unfolding_all decide

/-- C3 witness: the amended statement instantiated on the flat series. -/
theorem C3_degenerate_still_result_witness :
    ∃ r, analyze_stock (some flat20) = some r ∧ r.results.good_rr = false :=
  C3_degenerate_still_result flat20 (by decide) (by with_unfolding_all decide)
